import Mathlib

/-!
Shallow embedding of `src/executor.ts` from the obsidian-claude-code-skills
plugin, together with proofs about the claims of its specification.

The heart of the repository is `runWithSkillStreaming`: it validates the
configured paths, composes an outbound message and a CLI argument list,
spawns an (optionally sandboxed) subprocess, incrementally parses the
subprocess's stdout as newline-delimited JSON events, and manages the
process lifecycle (timeout / close / error / cancel) through a `killed`
flag.  The definitions below translate that code; JavaScript and Node
builtins (`JSON.parse`, `Buffer.toString("utf8")`, `String.prototype.trim`,
`path.basename`, `Array.split`) are modelled by explicit executable Lean
functions — in particular stdout arrivals are byte chunks that the data
handler decodes per chunk, as the source does.
-/

namespace ClaudeSkills

/-! ### JSON values

Model of the values produced by `JSON.parse`.  Numeric literals are kept
verbatim as their source text: no code in the repository ever inspects a
numeric field of a parsed event, it only compares `type`-like fields with
string constants and reads string fields. -/

inductive Json where
  | null
  | bool (b : Bool)
  | num (lit : String)
  | str (s : String)
  | arr (elems : List Json)
  | obj (fields : List (String × Json))
deriving Repr, Inhabited

mutual

def Json.beq : Json → Json → Bool
  | .null, .null => true
  | .bool a, .bool b => a == b
  | .num a, .num b => a == b
  | .str a, .str b => a == b
  | .arr xs, .arr ys => Json.beqList xs ys
  | .obj xs, .obj ys => Json.beqFields xs ys
  | _, _ => false

def Json.beqList : List Json → List Json → Bool
  | [], [] => true
  | x :: xs, y :: ys => Json.beq x y && Json.beqList xs ys
  | _, _ => false

def Json.beqFields : List (String × Json) → List (String × Json) → Bool
  | [], [] => true
  | (k1, v1) :: xs, (k2, v2) :: ys =>
    k1 == k2 && Json.beq v1 v2 && Json.beqFields xs ys
  | _, _ => false

end

mutual

theorem Json.eq_of_beq : ∀ {a b : Json}, Json.beq a b = true → a = b
  | .null, .null, _ => rfl
  | .bool _, .bool _, h => by
    simp only [Json.beq, beq_iff_eq] at h; exact congrArg Json.bool h
  | .num _, .num _, h => by
    simp only [Json.beq, beq_iff_eq] at h; exact congrArg Json.num h
  | .str _, .str _, h => by
    simp only [Json.beq, beq_iff_eq] at h; exact congrArg Json.str h
  | .arr _, .arr _, h => by
    simp only [Json.beq] at h; exact congrArg Json.arr (Json.eqList_of_beqList h)
  | .obj _, .obj _, h => by
    simp only [Json.beq] at h; exact congrArg Json.obj (Json.eqFields_of_beqFields h)

theorem Json.eqList_of_beqList : ∀ {xs ys : List Json}, Json.beqList xs ys = true → xs = ys
  | [], [], _ => rfl
  | x :: xs, y :: ys, h => by
    simp only [Json.beqList, Bool.and_eq_true] at h
    exact congrArg₂ List.cons (Json.eq_of_beq h.1) (Json.eqList_of_beqList h.2)

theorem Json.eqFields_of_beqFields :
    ∀ {xs ys : List (String × Json)}, Json.beqFields xs ys = true → xs = ys
  | [], [], _ => rfl
  | (k1, v1) :: xs, (k2, v2) :: ys, h => by
    simp only [Json.beqFields, Bool.and_eq_true, beq_iff_eq] at h
    have hk : k1 = k2 := h.1.1
    have hv : v1 = v2 := Json.eq_of_beq h.1.2
    have ht : xs = ys := Json.eqFields_of_beqFields h.2
    rw [hk, hv, ht]

end

mutual

theorem Json.beq_refl : ∀ (a : Json), Json.beq a a = true
  | .null => rfl
  | .bool b => by simp [Json.beq]
  | .num n => by simp [Json.beq]
  | .str s => by simp [Json.beq]
  | .arr xs => by simp only [Json.beq]; exact Json.beqList_refl xs
  | .obj fs => by simp only [Json.beq]; exact Json.beqFields_refl fs

theorem Json.beqList_refl : ∀ (xs : List Json), Json.beqList xs xs = true
  | [] => rfl
  | x :: xs => by
    simp only [Json.beqList, Bool.and_eq_true]
    exact ⟨Json.beq_refl x, Json.beqList_refl xs⟩

theorem Json.beqFields_refl : ∀ (xs : List (String × Json)), Json.beqFields xs xs = true
  | [] => rfl
  | (k, v) :: xs => by
    simp only [Json.beqFields, Bool.and_eq_true, beq_iff_eq]
    exact ⟨⟨trivial, Json.beq_refl v⟩, Json.beqFields_refl xs⟩

end

instance : DecidableEq Json := fun a b =>
  if h : Json.beq a b = true then .isTrue (Json.eq_of_beq h)
  else .isFalse (fun he => h (he ▸ Json.beq_refl a))

/-- Property access `o.key` on a parsed JSON value.  `JSON.parse` keeps the
last of duplicate keys, hence the `reverse`.  Access on a non-object
(including an array, whose properties are numeric indices) yields
`undefined`, modelled as `none`. -/
def Json.getField (j : Json) (key : String) : Option Json :=
  match j with
  | .obj fields => fields.reverse.lookup key
  | _ => none

/-- Models the JavaScript test `x && typeof x === "object"` applied to a
JSON value: `null` has `typeof` `"object"` but is falsy; objects and
arrays pass. -/
def jsObjLike : Json → Bool
  | .obj _ => true
  | .arr _ => true
  | _ => false

/-! ### A model of `JSON.parse`

Fuel-based recursive-descent parser for one line of output.  It accepts
exactly one JSON value, optionally surrounded by whitespace, and fails
(`none`) otherwise — this is the success/failure behaviour the stdout
handler in `executor.ts` branches on. -/

def jsonWs (c : Char) : Bool :=
  c = ' ' ∨ c = '\t' ∨ c = '\n' ∨ c = '\r'

def skipWs : List Char → List Char
  | [] => []
  | c :: rest => if jsonWs c then skipWs rest else c :: rest

def hexVal (c : Char) : Option Nat :=
  if '0' ≤ c ∧ c ≤ '9' then some (c.toNat - '0'.toNat)
  else if 'a' ≤ c ∧ c ≤ 'f' then some (c.toNat - 'a'.toNat + 10)
  else if 'A' ≤ c ∧ c ≤ 'F' then some (c.toNat - 'A'.toNat + 10)
  else none

/-- Body of a JSON string literal, after the opening quote. -/
def parseStringBody : Nat → List Char → List Char → Option (String × List Char)
  | 0, _, _ => none
  | _ + 1, [], _ => none
  | fuel + 1, c :: rest, acc =>
    if c = '"' then some (String.mk acc.reverse, rest)
    else if c = '\\' then
      match rest with
      | [] => none
      | e :: rest2 =>
        if e = '"' then parseStringBody fuel rest2 ('"' :: acc)
        else if e = '\\' then parseStringBody fuel rest2 ('\\' :: acc)
        else if e = '/' then parseStringBody fuel rest2 ('/' :: acc)
        else if e = 'b' then parseStringBody fuel rest2 ('\x08' :: acc)
        else if e = 'f' then parseStringBody fuel rest2 ('\x0c' :: acc)
        else if e = 'n' then parseStringBody fuel rest2 ('\n' :: acc)
        else if e = 'r' then parseStringBody fuel rest2 ('\x0d' :: acc)
        else if e = 't' then parseStringBody fuel rest2 ('\t' :: acc)
        else if e = 'u' then
          match rest2 with
          | a :: b :: c2 :: d :: rest3 =>
            match hexVal a, hexVal b, hexVal c2, hexVal d with
            | some ha, some hb, some hc, some hd =>
              parseStringBody fuel rest3
                (Char.ofNat (ha * 4096 + hb * 256 + hc * 16 + hd) :: acc)
            | _, _, _, _ => none
          | _ => none
        else none
    else if c.toNat < 32 then none
    else parseStringBody fuel rest (c :: acc)

/-- A JSON numeric literal, returned as its raw text. -/
def parseNumberLit (cs : List Char) : Option (String × List Char) :=
  let (signChars, cs1) :=
    match cs with
    | '-' :: r => (['-'], r)
    | _ => (([] : List Char), cs)
  match cs1 with
  | [] => none
  | c :: _ =>
    if c.isDigit then
      let intPart := if c = '0' then ['0'] else cs1.takeWhile Char.isDigit
      let rest1 := cs1.drop intPart.length
      let fracRes : Option (List Char × List Char) :=
        match rest1 with
        | '.' :: r =>
          let ds := r.takeWhile Char.isDigit
          if ds = [] then none else some ('.' :: ds, r.drop ds.length)
        | _ => some ([], rest1)
      match fracRes with
      | none => none
      | some (fracPart, rest2) =>
        let expRes : Option (List Char × List Char) :=
          match rest2 with
          | e :: r =>
            if e = 'e' ∨ e = 'E' then
              let p :=
                match r with
                | s :: r2 => if s = '+' ∨ s = '-' then ([s], r2) else (([] : List Char), r)
                | [] => (([] : List Char), r)
              let ds := p.2.takeWhile Char.isDigit
              if ds = [] then none
              else some (e :: (p.1 ++ ds), p.2.drop ds.length)
            else some ([], rest2)
          | [] => some ([], rest2)
        match expRes with
        | none => none
        | some (expPart, rest3) =>
          some (String.mk (signChars ++ intPart ++ fracPart ++ expPart), rest3)
    else none

mutual

def parseVal : Nat → List Char → Option (Json × List Char)
  | 0, _ => none
  | fuel + 1, cs =>
    match skipWs cs with
    | [] => none
    | c :: rest =>
      if c = '"' then
        match parseStringBody (rest.length + 1) rest [] with
        | some (s, r) => some (.str s, r)
        | none => none
      else if c = '{' then
        match skipWs rest with
        | '}' :: r2 => some (.obj [], r2)
        | _ =>
          match parseMembers fuel rest [] with
          | some (fs, r2) => some (.obj fs.reverse, r2)
          | none => none
      else if c = '[' then
        match skipWs rest with
        | ']' :: r2 => some (.arr [], r2)
        | _ =>
          match parseElems fuel rest [] with
          | some (es, r2) => some (.arr es.reverse, r2)
          | none => none
      else if c = 't' then
        match rest with
        | 'r' :: 'u' :: 'e' :: r => some (.bool true, r)
        | _ => none
      else if c = 'f' then
        match rest with
        | 'a' :: 'l' :: 's' :: 'e' :: r => some (.bool false, r)
        | _ => none
      else if c = 'n' then
        match rest with
        | 'u' :: 'l' :: 'l' :: r => some (.null, r)
        | _ => none
      else
        match parseNumberLit (c :: rest) with
        | some (lit, r) => some (.num lit, r)
        | none => none

def parseMembers :
    Nat → List Char → List (String × Json) → Option (List (String × Json) × List Char)
  | 0, _, _ => none
  | fuel + 1, cs, acc =>
    match skipWs cs with
    | '"' :: rest =>
      match parseStringBody (rest.length + 1) rest [] with
      | some (key, r1) =>
        match skipWs r1 with
        | ':' :: r2 =>
          match parseVal fuel r2 with
          | some (v, r3) =>
            match skipWs r3 with
            | ',' :: r4 => parseMembers fuel r4 ((key, v) :: acc)
            | '}' :: r4 => some ((key, v) :: acc, r4)
            | _ => none
          | none => none
        | _ => none
      | none => none
    | _ => none

def parseElems : Nat → List Char → List Json → Option (List Json × List Char)
  | 0, _, _ => none
  | fuel + 1, cs, acc =>
    match parseVal fuel cs with
    | some (v, r1) =>
      match skipWs r1 with
      | ',' :: r2 => parseElems fuel r2 (v :: acc)
      | ']' :: r2 => some (v :: acc, r2)
      | _ => none
    | none => none

end

/-- Model of `JSON.parse(line)`: `some` on a single well-formed JSON value
(surrounding whitespace allowed), `none` on anything else. -/
def jsonParse (s : String) : Option Json :=
  match parseVal (s.length + 1) s.data with
  | some (v, rest) => if skipWs rest = [] then some v else none
  | none => none

/-! ### JavaScript string helpers -/

/-- Whitespace for `String.prototype.trim` (the characters relevant here). -/
def jsSpace (c : Char) : Bool :=
  c = ' ' ∨ c = '\t' ∨ c = '\n' ∨ c = '\r' ∨ c = '\x0b' ∨ c = '\x0c'

/-- Model of `s.trim()`. -/
def jsTrim (s : String) : String :=
  String.mk (((s.data.dropWhile jsSpace).reverse.dropWhile jsSpace).reverse)

/-- Model of the test `!line.trim()`: true iff the line is all whitespace. -/
def jsTrimEmpty (line : List Char) : Bool :=
  line.all jsSpace

/-! ### Line splitting

`executor.ts` keeps a carry-over `buffer`, appends each arriving chunk,
splits on `"\n"` and pops the last segment back into the buffer:

```
buffer += rawChunk.toString("utf8");
const lines = buffer.split("\n");
buffer = lines.pop() ?? "";
```

`splitNl cs = (complete lines, remainder)` returns exactly
(`lines`, new `buffer`) for input `cs = buffer ++ chunk`. -/

def splitNl : List Char → List (List Char) × List Char
  | [] => ([], [])
  | c :: rest =>
    let p := splitNl rest
    if c = '\n' then (([] : List Char) :: p.1, p.2)
    else
      match p.1 with
      | [] => ([], c :: p.2)
      | l :: ls => ((c :: l) :: ls, p.2)

/-! ### UTF-8 decoding of stdout chunks

`executor.ts` line 189 decodes **each arriving chunk independently**:
`buffer += rawChunk.toString("utf8")`.  `Buffer.toString("utf8")` is a
whole-buffer WHATWG-style UTF-8 decoder: an ill-formed or incomplete byte
sequence (for instance the two halves of a multi-byte character split
across chunk boundaries) decodes to U+FFFD replacement characters, one
per maximal subpart.  Stdout data therefore arrives as *bytes*, and the
decode does **not** commute with concatenation across chunk boundaries. -/

/-- U+FFFD, the Unicode replacement character. -/
def replacementChar : Char := Char.ofNat 0xFFFD

/-- A UTF-8 continuation byte, `0x80`–`0xBF`. -/
def isUtf8Cont (b : Nat) : Bool :=
  0x80 ≤ b ∧ b ≤ 0xBF

/-- Admissible second byte after a three-byte leader (`0xE0` needs
`0xA0`–`0xBF`, `0xED` needs `0x80`–`0x9F` to exclude surrogates). -/
def utf8Second3Ok (b b1 : Nat) : Bool :=
  if b = 0xE0 then 0xA0 ≤ b1 ∧ b1 ≤ 0xBF
  else if b = 0xED then 0x80 ≤ b1 ∧ b1 ≤ 0x9F
  else isUtf8Cont b1

/-- Admissible second byte after a four-byte leader (`0xF0` needs
`0x90`–`0xBF`, `0xF4` needs `0x80`–`0x8F` to stay below U+110000). -/
def utf8Second4Ok (b b1 : Nat) : Bool :=
  if b = 0xF0 then 0x90 ≤ b1 ∧ b1 ≤ 0xBF
  else if b = 0xF4 then 0x80 ≤ b1 ∧ b1 ≤ 0x8F
  else isUtf8Cont b1

/-- Model of `Buffer.toString("utf8")`: WHATWG UTF-8 decoding with
replacement — each maximal ill-formed or truncated subpart yields one
U+FFFD, and decoding resumes at the first unconsumed byte. -/
def utf8Decode : List Nat → List Char
  | [] => []
  | b :: rest =>
    if b < 0x80 then Char.ofNat b :: utf8Decode rest
    else if 0xC2 ≤ b ∧ b ≤ 0xDF then
      match rest with
      | [] => [replacementChar]
      | b1 :: rest1 =>
        if isUtf8Cont b1 then
          Char.ofNat ((b - 0xC0) * 64 + (b1 - 0x80)) :: utf8Decode rest1
        else replacementChar :: utf8Decode (b1 :: rest1)
    else if 0xE0 ≤ b ∧ b ≤ 0xEF then
      match rest with
      | [] => [replacementChar]
      | b1 :: rest1 =>
        if utf8Second3Ok b b1 then
          match rest1 with
          | [] => [replacementChar]
          | b2 :: rest2 =>
            if isUtf8Cont b2 then
              Char.ofNat ((b - 0xE0) * 4096 + (b1 - 0x80) * 64 + (b2 - 0x80))
                :: utf8Decode rest2
            else replacementChar :: utf8Decode (b2 :: rest2)
        else replacementChar :: utf8Decode (b1 :: rest1)
    else if 0xF0 ≤ b ∧ b ≤ 0xF4 then
      match rest with
      | [] => [replacementChar]
      | b1 :: rest1 =>
        if utf8Second4Ok b b1 then
          match rest1 with
          | [] => [replacementChar]
          | b2 :: rest2 =>
            if isUtf8Cont b2 then
              match rest2 with
              | [] => [replacementChar]
              | b3 :: rest3 =>
                if isUtf8Cont b3 then
                  Char.ofNat ((b - 0xF0) * 262144 + (b1 - 0x80) * 4096
                      + (b2 - 0x80) * 64 + (b3 - 0x80))
                    :: utf8Decode rest3
                else replacementChar :: utf8Decode (b3 :: rest3)
            else replacementChar :: utf8Decode (b2 :: rest2)
        else replacementChar :: utf8Decode (b1 :: rest1)
    else replacementChar :: utf8Decode rest

/-- The canonical UTF-8 encoding of one scalar value; used to describe
byte partitions that split only at character boundaries. -/
def utf8EncodeChar (c : Char) : List Nat :=
  let n := c.toNat
  if n < 0x80 then [n]
  else if n < 0x800 then [0xC0 + n / 64, 0x80 + n % 64]
  else if n < 0x10000 then
    [0xE0 + n / 4096, 0x80 + (n / 64) % 64, 0x80 + n % 64]
  else
    [0xF0 + n / 262144, 0x80 + (n / 4096) % 64, 0x80 + (n / 64) % 64, 0x80 + n % 64]

def utf8Encode (s : List Char) : List Nat :=
  (s.map utf8EncodeChar).flatten

/-! ### The streaming engine as an event-driven machine

`runWithSkillStreaming` installs handlers for stdout `data`, process
`close`, process `error`, a single-shot timeout timer, and returns a
cancel closure.  All of them run on the single-threaded event loop, so an
invocation is a sequence of atomic handler executions.  We model one
invocation as a fold of `step` over a list of events; a step returns the
new mutable state (`buffer`, `finalResult`, `capturedSessionId`,
`killed`) and the observable outputs it produces (callback invocations
and `proc.kill()` requests).

The timer (`setTimeout` / `clearTimeout`) is represented in the
*admissibility* predicate on event traces rather than in the state: a
`timeout` event can only occur while the timer is armed, i.e. before any
`close`, `error`, `cancel` or earlier `timeout` (all of which disarm it,
and the single-shot timer never fires twice). -/

/-- Observable effects of one invocation: the three callbacks plus the
OS-level termination request `proc.kill()`. -/
inductive Out where
  | chunk (text : String)
  | done (fullText : String) (sessionId : Option String)
  | error (msg : String)
  | killProc
deriving Repr, DecidableEq

/-- Events delivered to the invocation by the event loop.  A `data`
event carries the raw *bytes* of one stdout arrival (`rawChunk : Buffer`);
the handler decodes them with `Buffer.toString("utf8")`, modelled by
`utf8Decode`. -/
inductive Ev where
  | data (bytes : List Nat)
  | close
  | procError (msg : String)
  | timeout
  | cancel
deriving Repr, DecidableEq

/-- The mutable state captured by the closures in `runWithSkillStreaming`. -/
structure ProcState where
  buffer : List Char
  finalResult : String
  capturedSessionId : Option String
  killed : Bool
deriving Repr, DecidableEq

def initState : ProcState :=
  { buffer := [], finalResult := "", capturedSessionId := none, killed := false }

/-- The streamed-text-delta classification of one parsed event
(`executor.ts` lines 203–219): returns the text to pass to `onChunk`, or
`none` when the event is not a non-empty text delta.  The final truthiness
test `delta.text` is why an empty fragment is never emitted. -/
def chunkOf (event : Json) : Option String :=
  if event.getField "type" = some (Json.str "stream_event") then
    match event.getField "event" with
    | some inner =>
      if jsObjLike inner then
        if inner.getField "type" = some (Json.str "content_block_delta") then
          match inner.getField "delta" with
          | some delta =>
            if jsObjLike delta then
              if delta.getField "type" = some (Json.str "text_delta") then
                match delta.getField "text" with
                | some (Json.str t) => if t ≠ "" then some t else none
                | _ => none
              else none
            else none
          | none => none
        else none
      else none
    | none => none
  else none

/-- The `result`-event handling of one parsed event (`executor.ts` lines
222–229): an event of type `"result"` overwrites `finalResult` when it
carries a string `result` field and `capturedSessionId` when it carries a
string `session_id` field. -/
def applyResult (event : Json) (finalResult : String) (sid : Option String) :
    String × Option String :=
  if event.getField "type" = some (Json.str "result") then
    ( match event.getField "result" with
      | some (Json.str s) => s
      | _ => finalResult,
      match event.getField "session_id" with
      | some (Json.str s) => some s
      | _ => sid )
  else (finalResult, sid)

/-- The body of the `for (const line of lines)` loop: skip blank lines,
skip lines that fail to parse, otherwise emit a chunk for a recognized
text delta and fold the `result`-event updates. -/
def processLine (finalResult : String) (sid : Option String) (line : List Char) :
    List Out × String × Option String :=
  if jsTrimEmpty line then ([], finalResult, sid)
  else
    match jsonParse (String.mk line) with
    | none => ([], finalResult, sid)
    | some event =>
      let outs : List Out :=
        match chunkOf event with
        | some t => [Out.chunk t]
        | none => []
      let p := applyResult event finalResult sid
      (outs, p.1, p.2)

/-- The whole loop over the complete lines of one `data` arrival. -/
def processLines (finalResult : String) (sid : Option String) :
    List (List Char) → List Out × String × Option String
  | [] => ([], finalResult, sid)
  | l :: ls =>
    let p := processLine finalResult sid l
    let q := processLines p.2.1 p.2.2 ls
    (p.1 ++ q.1, q.2)

/-- Decimal rendering of `timeoutMs / 1000`, modelling the JavaScript
number formatting in `` `Claude timed out after ${settings.timeout / 1000}s` ``
(trailing zeros of the fractional part are not printed). -/
def jsDiv1000String (t : Nat) : String :=
  if t % 1000 = 0 then toString (t / 1000)
  else
    let frac := (toString (t % 1000 + 1000)).data.drop 1
    toString (t / 1000) ++ "." ++ String.mk ((frac.reverse.dropWhile (· = '0')).reverse)

/-- The timeout error message. -/
def timeoutMessage (timeoutMs : Nat) : String :=
  "Claude timed out after " ++ jsDiv1000String timeoutMs ++ "s"

/-- The stdout `data` handler body applied to the *already decoded* text
of one chunk: append to the carry-over buffer, split on newlines, keep
the last segment as the new buffer, run the line loop on the complete
lines. -/
def dataHandler (s : ProcState) (chunkText : List Char) : ProcState × List Out :=
  let p := splitNl (s.buffer ++ chunkText)
  let q := processLines s.finalResult s.capturedSessionId p.1
  ({ s with buffer := p.2, finalResult := q.2.1, capturedSessionId := q.2.2 }, q.1)

/-- One handler execution.  Faithful points worth noting:
* the stdout `data` handler decodes each chunk's bytes **independently**
  (`buffer += rawChunk.toString("utf8")`, line 189) and does **not**
  consult `killed`;
* the `close` handler does **not** set `killed`;
* `procError`, `timeout` and `cancel` set `killed` and are no-ops when it
  is already set;
* `timeout` and `cancel` request process termination (`Out.killProc`). -/
def step (timeoutMs : Nat) (s : ProcState) : Ev → ProcState × List Out
  | .data bytes => dataHandler s (utf8Decode bytes)
  | .close =>
    if s.killed then (s, []) else (s, [Out.done s.finalResult s.capturedSessionId])
  | .procError m =>
    if s.killed then (s, []) else ({ s with killed := true }, [Out.error m])
  | .timeout =>
    if s.killed then (s, [])
    else ({ s with killed := true }, [Out.killProc, Out.error (timeoutMessage timeoutMs)])
  | .cancel =>
    if s.killed then (s, []) else ({ s with killed := true }, [Out.killProc])

/-- Run one invocation over a trace of events, concatenating outputs. -/
def run (timeoutMs : Nat) (s : ProcState) : List Ev → ProcState × List Out
  | [] => (s, [])
  | e :: rest =>
    let p := step timeoutMs s e
    let q := run timeoutMs p.1 rest
    (q.1, p.2 ++ q.2)

/-! ### Admissible traces

What the Node.js event loop can actually deliver: `close` fires at most
once and is the terminal process event (no process `error` after it), and
`timeout` only fires while the single-shot timer is still armed — every
one of `close` / `error` / `cancel` runs `clearTimeout`, and the timer
never fires twice. -/

def admAux (closed timerCleared : Bool) : List Ev → Bool
  | [] => true
  | e :: rest =>
    match e with
    | .data _ => admAux closed timerCleared rest
    | .close => !closed && admAux true true rest
    | .procError _ => !closed && admAux closed true rest
    | .timeout => !timerCleared && admAux closed true rest
    | .cancel => admAux closed true rest

def Admissible (t : List Ev) : Prop :=
  admAux false false t = true

/-- Events whose handler can decide the invocation's outcome: the three
terminal triggers plus cancellation. -/
def decisive : Ev → Bool
  | .close => true
  | .procError _ => true
  | .timeout => true
  | .cancel => true
  | .data _ => false

/-- The first decisive event of a trace, if any. -/
def firstDecisive (t : List Ev) : Option Ev :=
  t.find? decisive

/-- Terminal callbacks: `onDone` or `onError` invocations. -/
def isTerminal : Out → Bool
  | .done _ _ => true
  | .error _ => true
  | _ => false

def terminalCount (outs : List Out) : Nat :=
  outs.countP (fun o => isTerminal o)

/-! ### Configuration, validation and the synchronous invocation prologue

`runWithSkillStreaming` first runs `validatePaths`, then composes the
outbound message and the CLI argument list, wraps the command per
platform, spawns the subprocess, writes the message to stdin once and
closes it.  Filesystem probes (`fs.accessSync`, `fs.statSync`) and the
platform are inputs of the model. -/

structure PluginSettings where
  claudeBinPath : String
  workingDirectory : String
  timeout : Nat
  maxBudgetUsd : Rat
  outputFolder : String
  enabledSkills : List String
deriving Repr, DecidableEq

/-- Outcome of `fs.statSync(dir)` combined with `stat.isDirectory()`. -/
inductive StatOutcome where
  | isDir
  | isNotDir
  | enoent
  | otherError (msg : String)
deriving Repr, DecidableEq

/-- The filesystem facts the executor consults. -/
structure FsOracle where
  executableOk : String → Bool
  statOf : String → StatOutcome

/-- `process.platform`. -/
inductive Platform where
  | linux
  | darwin
  | win32
  | other
deriving Repr, DecidableEq

def VALID_BINARY_NAMES : List String := ["claude", "claude-code"]

/-- Model of Node's `path.basename` (POSIX flavour): strip trailing
separators, take the last component. -/
def basename (p : String) : String :=
  let cs := p.data.reverse.dropWhile (· = '/')
  String.mk (cs.takeWhile (· ≠ '/')).reverse

/-- `validatePaths` (`executor.ts` lines 11–38).  Thrown `Error`s are
modelled by their message. -/
def validatePaths (fsO : FsOracle) (settings : PluginSettings) : Except String Unit :=
  let name := basename settings.claudeBinPath
  if ¬ VALID_BINARY_NAMES.contains name then
    Except.error ("Unexpected binary name \"" ++ name ++ "\". Expected one of: "
      ++ String.intercalate ", " VALID_BINARY_NAMES)
  else if ¬ fsO.executableOk settings.claudeBinPath then
    Except.error ("Binary not found or not executable: " ++ settings.claudeBinPath)
  else if jsTrim settings.workingDirectory ≠ "" then
    match fsO.statOf settings.workingDirectory with
    | .isDir => Except.ok ()
    | .isNotDir =>
      Except.error ("Working directory is not a directory: " ++ settings.workingDirectory)
    | .enoent =>
      Except.error ("Working directory does not exist: " ++ settings.workingDirectory)
    | .otherError m => Except.error m
  else Except.ok ()

/-- The outbound message (`executor.ts` line 143):
`skillId ? /{skillId}\n\n{text} : text`.  JavaScript truthiness: `null`
and the empty string both select the bare `text`. -/
def composeMessage (skillId : Option String) (text : String) : String :=
  match skillId with
  | some sid => if sid ≠ "" then "/" ++ sid ++ "\n\n" ++ text else text
  | none => text

/-- Renders the numeric budget for `String(settings.maxBudgetUsd)`.  Only
the fact that it is the flag's value matters to the claims. -/
def budgetValueString (q : Rat) : String :=
  if q.den = 1 then toString q.num else toString q.num ++ "/" ++ toString q.den

/-- The unconditional part of the CLI argument list
(`executor.ts` lines 145–151). -/
def claudeBaseArgs : List String :=
  ["--print",
   "--output-format", "stream-json",
   "--include-partial-messages",
   "--verbose",
   "--allowedTools", "Skill"]

/-- The CLI argument list (`executor.ts` lines 145–160).  The budget flag
is appended only when `maxBudgetUsd > 0`; the resume flag only when a
truthy (non-null, non-empty) session id was supplied. -/
def claudeArgs (settings : PluginSettings) (sessionId : Option String) : List String :=
  let withBudget :=
    if 0 < settings.maxBudgetUsd then
      claudeBaseArgs ++ ["--max-budget-usd", budgetValueString settings.maxBudgetUsd]
    else claudeBaseArgs
  match sessionId with
  | some sid => if sid ≠ "" then withBudget ++ ["--resume", sid] else withBudget
  | none => withBudget

structure SpawnTarget where
  command : String
  args : List String
deriving Repr, DecidableEq

/-- The macOS sandbox profile string of `buildIsolatedSpawn`. -/
def sandboxProfile : String :=
  String.intercalate " "
    ["(version 1)",
     "(deny default)",
     "(allow process-exec*)",
     "(allow process-fork)",
     "(allow signal)",
     "(allow sysctl-read)",
     "(allow file-read*)",
     "(allow file-write-data (literal \"/dev/null\"))",
     "(deny network*)"]

/-- `buildIsolatedSpawn` (`executor.ts` lines 58–106): wrap with
`systemd-run` on Linux or `sandbox-exec` on macOS when the wrapper binary
is executable, otherwise run the binary directly. -/
def buildIsolatedSpawn (fsO : FsOracle) (platform : Platform)
    (claudeBin : String) (cArgs : List String) : SpawnTarget :=
  match platform with
  | .linux =>
    if fsO.executableOk "/usr/bin/systemd-run" then
      { command := "/usr/bin/systemd-run",
        args := ["--scope", "--user", "--quiet", "-p", "IPAddressDeny=any", "--", claudeBin]
          ++ cArgs }
    else { command := claudeBin, args := cArgs }
  | .darwin =>
    if fsO.executableOk "/usr/bin/sandbox-exec" then
      { command := "/usr/bin/sandbox-exec",
        args := ["-p", sandboxProfile, "--", claudeBin] ++ cArgs }
    else { command := claudeBin, args := cArgs }
  | _ => { command := claudeBin, args := cArgs }

/-- What the spawn call and the immediately following stdin writes look
like for an invocation that passed validation. -/
structure SpawnRecord where
  command : String
  args : List String
  cwd : String
  stdinWrites : List String
  stdinClosed : Bool
deriving Repr, DecidableEq

/-- Result of the synchronous part of `runWithSkillStreaming` (lines
134–173): either a synchronous `onError` with no spawn and a no-op cancel
handle, or a spawned subprocess with the composed message written once to
its closed stdin. -/
structure InvokeResult where
  syncOutputs : List Out
  spawned : Option SpawnRecord
  cancelNoop : Bool
deriving Repr, DecidableEq

def invokeSetup (fsO : FsOracle) (platform : Platform) (homedir : String)
    (skillId : Option String) (text : String) (settings : PluginSettings)
    (sessionId : Option String) : InvokeResult :=
  match validatePaths fsO settings with
  | .error e => { syncOutputs := [Out.error e], spawned := none, cancelNoop := true }
  | .ok _ =>
    let message := composeMessage skillId text
    let args := claudeArgs settings sessionId
    let target := buildIsolatedSpawn fsO platform settings.claudeBinPath args
    let trimmedWd := jsTrim settings.workingDirectory
    let cwd := if trimmedWd ≠ "" then trimmedWd else homedir
    { syncOutputs := [],
      spawned := some
        { command := target.command, args := target.args, cwd := cwd,
          stdinWrites := [message], stdinClosed := true },
      cancelNoop := false }

/-! ### Specification-side readings of the output stream

Used to compare the executor's incremental fold with a direct description
of the whole stream.  A "result event carrying a session identifier" is a
complete line that parses to a JSON event of type `"result"` whose
`session_id` field is a string. -/

/-- The session identifier carried by one complete line, when the line is
a `result` event with a string `session_id` field. -/
def resultSessionIdOfLine (line : List Char) : Option String :=
  if jsTrimEmpty line then none
  else
    match jsonParse (String.mk line) with
    | none => none
    | some ev =>
      if ev.getField "type" = some (Json.str "result") then
        match ev.getField "session_id" with
        | some (Json.str s) => some s
        | _ => none
      else none

/-- The session identifiers of all result events among the complete lines
of the concatenated stream bytes, in stream order. -/
def streamSessionIds (bytes : List Char) : List String :=
  (splitNl bytes).1.filterMap resultSessionIdOfLine

/-- The session identifier of the *last* result event of the stream that
carries one. -/
def lastStreamSessionId (bytes : List Char) : Option String :=
  (streamSessionIds bytes).getLast?

/-- The session identifier of the *first* result event of the stream that
carries one. -/
def firstStreamSessionId (bytes : List Char) : Option String :=
  (streamSessionIds bytes).head?

/-- The session identifiers passed to `onDone`, in output order. -/
def doneSessionIds (outs : List Out) : List (Option String) :=
  outs.filterMap fun o =>
    match o with
    | .done _ sid => some sid
    | _ => none

/-! ## Theorems -/

/-- C10: a parsed `stream_event` whose content-block delta carries the
empty string as its `text` field never reaches `onChunk` — the truthiness
guard `delta.text` in `executor.ts` line 215 filters it — and more
generally every fragment passed to `onChunk` by the line classifier is
non-empty. -/
theorem empty_text_delta_never_emitted (ev inner delta : Json)
    (h1 : ev.getField "event" = some inner)
    (h2 : inner.getField "delta" = some delta)
    (h3 : delta.getField "text" = some (Json.str "")) :
    chunkOf ev = none ∧ ∀ (e : Json) (t : String), chunkOf e = some t → t ≠ "" := by
  constructor
  · simp only [chunkOf, h1, h2, h3]
    repeat' split <;> simp_all
  · intro e t h
    unfold chunkOf at h
    repeat' split at h
    all_goals
      first
        | exact Option.noConfusion h
        | (injection h with h2; subst h2; assumption)

/-- C10 witness: a concrete event of the empty-delta shape. -/
theorem empty_text_delta_never_emitted_witness :
    chunkOf (Json.obj [("type", Json.str "stream_event"),
      ("event", Json.obj [("type", Json.str "content_block_delta"),
        ("delta", Json.obj [("type", Json.str "text_delta"),
          ("text", Json.str "")])])]) = none :=
  (empty_text_delta_never_emitted
    (Json.obj [("type", Json.str "stream_event"),
      ("event", Json.obj [("type", Json.str "content_block_delta"),
        ("delta", Json.obj [("type", Json.str "text_delta"),
          ("text", Json.str "")])])])
    (Json.obj [("type", Json.str "content_block_delta"),
      ("delta", Json.obj [("type", Json.str "text_delta"), ("text", Json.str "")])])
    (Json.obj [("type", Json.str "text_delta"), ("text", Json.str "")])
    (by rfl) (by rfl) (by rfl)).1

/-- C3: a line that does not parse as JSON — and likewise a parsed event
that is neither a recognized text delta nor a `result` event — produces
no callback at all (neither `onError` nor `onChunk`), leaves the folded
state untouched, and processing of the remaining lines is unchanged. -/
theorem unparsable_line_skipped (fr : String) (sid : Option String) (line : List Char)
    (rest : List (List Char)) :
    (jsonParse (String.mk line) = none →
      processLine fr sid line = ([], fr, sid) ∧
      processLines fr sid (line :: rest) = processLines fr sid rest) ∧
    (∀ ev, jsonParse (String.mk line) = some ev → chunkOf ev = none →
      ev.getField "type" ≠ some (Json.str "result") →
      processLine fr sid line = ([], fr, sid) ∧
      processLines fr sid (line :: rest) = processLines fr sid rest) := by
  constructor
  · intro hnone
    have hline : processLine fr sid line = ([], fr, sid) := by
      unfold processLine
      split
      · rfl
      · rw [hnone]
    refine ⟨hline, ?_⟩
    simp [processLines, hline]
  · intro ev hev hchunk hres
    have hline : processLine fr sid line = ([], fr, sid) := by
      unfold processLine
      split
      · rfl
      · rw [hev]
        simp only [hchunk]
        unfold applyResult
        rw [if_neg hres]
    refine ⟨hline, ?_⟩
    simp [processLines, hline]

/-- C3 witness: the concrete line `not json` fails to parse and is
skipped with no state change. -/
theorem unparsable_line_skipped_witness :
    jsonParse (String.mk ("not json".data)) = none ∧
    processLine "prev" (some "sid0") ("not json".data) = ([], "prev", some "sid0") :=
  ⟨by rfl, ((unparsable_line_skipped "prev" (some "sid0") ("not json".data) []).1 (by rfl)).1⟩

/-! ### Helper lemmas about the event machine -/

theorem run_cons (tm : Nat) (s : ProcState) (e : Ev) (rest : List Ev) :
    run tm s (e :: rest) =
      ((run tm (step tm s e).1 rest).1, (step tm s e).2 ++ (run tm (step tm s e).1 rest).2) :=
  rfl

theorem terminalCount_append (a b : List Out) :
    terminalCount (a ++ b) = terminalCount a + terminalCount b := by
  simp [terminalCount]

/-- Every output of the line loop is an `onChunk` call. -/
theorem processLine_outs_cases (fr : String) (sid : Option String) (l : List Char) :
    (processLine fr sid l).1 = [] ∨ ∃ t, (processLine fr sid l).1 = [Out.chunk t] := by
  unfold processLine
  split
  · exact Or.inl rfl
  · split
    · exact Or.inl rfl
    · rename_i ev _
      cases hc : chunkOf ev with
      | none => exact Or.inl (by simp [hc])
      | some t => exact Or.inr ⟨t, by simp [hc]⟩

theorem mem_processLines_chunk :
    ∀ (ls : List (List Char)) (fr : String) (sid : Option String) (o : Out),
      o ∈ (processLines fr sid ls).1 → ∃ c, o = Out.chunk c := by
  intro ls
  induction ls with
  | nil =>
    intro fr sid o ho
    simp [processLines] at ho
  | cons l ls ih =>
    intro fr sid o ho
    simp only [processLines, List.mem_append] at ho
    rcases ho with ho | ho
    · rcases processLine_outs_cases fr sid l with h | ⟨t, h⟩
      · rw [h] at ho
        simp at ho
      · rw [h] at ho
        simp at ho
        exact ⟨t, ho⟩
    · exact ih _ _ _ ho

theorem dataHandler_outs_chunk (s : ProcState) (chunkText : List Char) (o : Out)
    (ho : o ∈ (dataHandler s chunkText).2) : ∃ c, o = Out.chunk c := by
  simp only [dataHandler] at ho
  exact mem_processLines_chunk _ _ _ _ ho

theorem dataHandler_killed (s : ProcState) (chunkText : List Char) :
    ((dataHandler s chunkText).1).killed = s.killed := by
  simp [dataHandler]

theorem step_data_outs_chunk (tm : Nat) (s : ProcState) (bytes : List Nat) (o : Out)
    (ho : o ∈ (step tm s (Ev.data bytes)).2) : ∃ c, o = Out.chunk c :=
  dataHandler_outs_chunk s (utf8Decode bytes) o ho

theorem step_data_killed (tm : Nat) (s : ProcState) (bytes : List Nat) :
    ((step tm s (Ev.data bytes)).1).killed = s.killed :=
  dataHandler_killed s (utf8Decode bytes)

theorem step_preserves_killed (tm : Nat) (s : ProcState) (e : Ev) (h : s.killed = true) :
    ((step tm s e).1).killed = true := by
  cases e <;> simp [step, dataHandler, h]

/-- Once `killed` is set, every later output is an `onChunk` call from the
(unguarded) stdout handler: no terminal callback and no further kill. -/
theorem run_killed_outs_chunk (tm : Nat) :
    ∀ (t : List Ev) (s : ProcState), s.killed = true →
      ∀ o ∈ (run tm s t).2, ∃ c, o = Out.chunk c := by
  intro t
  induction t with
  | nil =>
    intro s _ o ho
    simp [run] at ho
  | cons e rest ih =>
    intro s h o ho
    rw [run_cons] at ho
    simp only [List.mem_append] at ho
    rcases ho with ho | ho
    · cases e with
      | data bytes => exact step_data_outs_chunk tm s bytes o ho
      | close => simp [step, h] at ho
      | procError m => simp [step, h] at ho
      | timeout => simp [step, h] at ho
      | cancel => simp [step, h] at ho
    · exact ih _ (step_preserves_killed tm s e h) o ho

theorem terminalCount_eq_zero_of_chunks {outs : List Out}
    (h : ∀ o ∈ outs, ∃ c, o = Out.chunk c) : terminalCount outs = 0 := by
  unfold terminalCount
  rw [List.countP_eq_zero]
  intro o ho
  rcases h o ho with ⟨c, rfl⟩
  simp [isTerminal]

/-- After the timer has been disarmed, `timeout` can never occur in an
admissible trace. -/
theorem no_timeout_of_cleared :
    ∀ (t : List Ev) (c : Bool), admAux c true t = true → Ev.timeout ∉ t := by
  intro t
  induction t with
  | nil =>
    intro c _ h
    simp at h
  | cons e rest ih =>
    intro c hadm hmem
    cases e with
    | data bytes =>
      simp only [admAux] at hadm
      rcases List.mem_cons.mp hmem with h | h
      · exact Ev.noConfusion h
      · exact ih c hadm h
    | close =>
      simp only [admAux, Bool.and_eq_true] at hadm
      rcases List.mem_cons.mp hmem with h | h
      · exact Ev.noConfusion h
      · exact ih true hadm.2 h
    | procError m =>
      simp only [admAux, Bool.and_eq_true] at hadm
      rcases List.mem_cons.mp hmem with h | h
      · exact Ev.noConfusion h
      · exact ih c hadm.2 h
    | timeout =>
      simp [admAux] at hadm
    | cancel =>
      simp only [admAux] at hadm
      rcases List.mem_cons.mp hmem with h | h
      · exact Ev.noConfusion h
      · exact ih c hadm h

/-- After `close` has fired `onDone` (and disarmed the timer), no further
terminal callback occurs in an admissible continuation. -/
theorem run_terminalCount_after_close (tm : Nat) :
    ∀ (t : List Ev) (s : ProcState), s.killed = false → admAux true true t = true →
      terminalCount (run tm s t).2 = 0 := by
  intro t
  induction t with
  | nil =>
    intro s _ _
    simp [run, terminalCount]
  | cons e rest ih =>
    intro s hk hadm
    cases e with
    | data bytes =>
      simp only [admAux] at hadm
      rw [run_cons, terminalCount_append,
        terminalCount_eq_zero_of_chunks (step_data_outs_chunk tm s bytes),
        ih _ (by rw [step_data_killed, hk]) hadm]
    | close =>
      simp [admAux] at hadm
    | procError m =>
      simp [admAux] at hadm
    | timeout =>
      simp [admAux] at hadm
    | cancel =>
      simp only [admAux] at hadm
      have hstep : step tm s Ev.cancel = ({ s with killed := true }, [Out.killProc]) := by
        simp [step, hk]
      rw [run_cons, terminalCount_append, hstep]
      rw [terminalCount_eq_zero_of_chunks (run_killed_outs_chunk tm rest _ rfl)]
      simp [terminalCount, isTerminal]

/-- Core accounting: from a live (`killed = false`) state, an admissible
trace produces exactly one terminal callback once a terminal trigger
(`close`, `error`, `timeout`) occurs first, and none if `cancel` comes
first or no decisive event occurs at all. -/
theorem run_terminalCount_main (tm : Nat) :
    ∀ (t : List Ev) (s : ProcState), s.killed = false → admAux false false t = true →
      terminalCount (run tm s t).2 =
        (match firstDecisive t with
         | some Ev.cancel => 0
         | some _ => 1
         | none => 0) := by
  intro t
  induction t with
  | nil =>
    intro s _ _
    simp [run, terminalCount, firstDecisive]
  | cons e rest ih =>
    intro s hk hadm
    cases e with
    | data bytes =>
      simp only [admAux] at hadm
      have hfd : firstDecisive (Ev.data bytes :: rest) = firstDecisive rest := by
        simp [firstDecisive, decisive]
      rw [hfd, run_cons, terminalCount_append,
        terminalCount_eq_zero_of_chunks (step_data_outs_chunk tm s bytes),
        ih _ (by rw [step_data_killed, hk]) hadm, Nat.zero_add]
    | close =>
      simp only [admAux, Bool.and_eq_true, Bool.not_false, true_and] at hadm
      have hstep : step tm s Ev.close = (s, [Out.done s.finalResult s.capturedSessionId]) := by
        simp [step, hk]
      have hfd : firstDecisive (Ev.close :: rest) = some Ev.close := by
        simp [firstDecisive, decisive]
      rw [hfd, run_cons, terminalCount_append, hstep,
        run_terminalCount_after_close tm rest s hk hadm]
      simp [terminalCount, isTerminal]
    | procError m =>
      simp only [admAux, Bool.and_eq_true, Bool.not_false, true_and] at hadm
      have hstep : step tm s (Ev.procError m) = ({ s with killed := true }, [Out.error m]) := by
        simp [step, hk]
      have hfd : firstDecisive (Ev.procError m :: rest) = some (Ev.procError m) := by
        simp [firstDecisive, decisive]
      rw [hfd, run_cons, terminalCount_append, hstep,
        terminalCount_eq_zero_of_chunks (run_killed_outs_chunk tm rest _ rfl)]
      simp [terminalCount, isTerminal]
    | timeout =>
      simp only [admAux, Bool.and_eq_true, Bool.not_false, true_and] at hadm
      have hstep : step tm s Ev.timeout =
          ({ s with killed := true }, [Out.killProc, Out.error (timeoutMessage tm)]) := by
        simp [step, hk]
      have hfd : firstDecisive (Ev.timeout :: rest) = some Ev.timeout := by
        simp [firstDecisive, decisive]
      rw [hfd, run_cons, terminalCount_append, hstep,
        terminalCount_eq_zero_of_chunks (run_killed_outs_chunk tm rest _ rfl)]
      simp [terminalCount, isTerminal]
    | cancel =>
      simp only [admAux] at hadm
      have hstep : step tm s Ev.cancel = ({ s with killed := true }, [Out.killProc]) := by
        simp [step, hk]
      have hfd : firstDecisive (Ev.cancel :: rest) = some Ev.cancel := by
        simp [firstDecisive, decisive]
      rw [hfd, run_cons, terminalCount_append, hstep,
        terminalCount_eq_zero_of_chunks (run_killed_outs_chunk tm rest _ rfl)]
      simp [terminalCount, isTerminal]

/-- C2: over every admissible event trace (close at most once and
terminal, single-shot timer disarmed by close/error/cancel) that contains
a decisive event, exactly one of `onDone` / `onError` fires — exactly
once — except when the first decisive event is the external cancellation,
in which case neither ever fires. -/
theorem exactly_one_terminal_callback (tm : Nat) (t : List Ev) (e : Ev)
    (hadm : Admissible t) (hfd : firstDecisive t = some e) :
    terminalCount (run tm initState t).2 = if e = Ev.cancel then 0 else 1 := by
  have h := run_terminalCount_main tm t initState rfl hadm
  rw [hfd] at h
  cases e <;> simpa using h

/-- C2 witness: a normally closing invocation fires exactly one terminal
callback. -/
theorem exactly_one_terminal_callback_witness :
    Admissible [Ev.close] ∧ firstDecisive [Ev.close] = some Ev.close ∧
    terminalCount (run 120000 initState [Ev.close]).2 = 1 := by
  refine ⟨by rfl, by decide, ?_⟩
  have h := exactly_one_terminal_callback 120000 [Ev.close] Ev.close (by rfl) (by decide)
  simpa using h

theorem run_timeout_effects (tm : Nat) :
    ∀ (t : List Ev) (s : ProcState), s.killed = false → admAux false false t = true →
      Ev.timeout ∈ t →
      Out.killProc ∈ (run tm s t).2 ∧
      Out.error (timeoutMessage tm) ∈ (run tm s t).2 ∧
      ∀ (ft : String) (sid : Option String), Out.done ft sid ∉ (run tm s t).2 := by
  intro t
  induction t with
  | nil =>
    intro s _ _ hmem
    simp at hmem
  | cons e rest ih =>
    intro s hk hadm hmem
    cases e with
    | data bytes =>
      simp only [admAux] at hadm
      have hmem' : Ev.timeout ∈ rest := by
        rcases List.mem_cons.mp hmem with h | h
        · exact absurd h (by simp)
        · exact h
      obtain ⟨h1, h2, h3⟩ :=
        ih (step tm s (Ev.data bytes)).1 (by rw [step_data_killed, hk]) hadm hmem'
      rw [run_cons]
      refine ⟨List.mem_append_right _ h1, List.mem_append_right _ h2, ?_⟩
      intro ft sid hmem2
      rcases List.mem_append.mp hmem2 with h | h
      · rcases step_data_outs_chunk tm s bytes _ h with ⟨c, hc⟩
        exact Out.noConfusion hc
      · exact h3 ft sid h
    | close =>
      simp only [admAux, Bool.and_eq_true, Bool.not_false, true_and] at hadm
      have hmem' : Ev.timeout ∈ rest := by
        rcases List.mem_cons.mp hmem with h | h
        · exact absurd h (by simp)
        · exact h
      exact absurd hmem' (no_timeout_of_cleared rest true hadm)
    | procError m =>
      simp only [admAux, Bool.and_eq_true, Bool.not_false, true_and] at hadm
      have hmem' : Ev.timeout ∈ rest := by
        rcases List.mem_cons.mp hmem with h | h
        · exact absurd h (by simp)
        · exact h
      exact absurd hmem' (no_timeout_of_cleared rest false hadm)
    | cancel =>
      simp only [admAux] at hadm
      have hmem' : Ev.timeout ∈ rest := by
        rcases List.mem_cons.mp hmem with h | h
        · exact absurd h (by simp)
        · exact h
      exact absurd hmem' (no_timeout_of_cleared rest false hadm)
    | timeout =>
      have hstep : step tm s Ev.timeout =
          ({ s with killed := true }, [Out.killProc, Out.error (timeoutMessage tm)]) := by
        simp [step, hk]
      rw [run_cons, hstep]
      refine ⟨List.mem_append_left _ (by simp), List.mem_append_left _ (by simp), ?_⟩
      intro ft sid hmem2
      rcases List.mem_append.mp hmem2 with h | h
      · simp at h
      · rcases run_killed_outs_chunk tm rest _ rfl _ h with ⟨c, hc⟩
        exact Out.noConfusion hc

/-- C4: if the timeout fires before the subprocess exits (which is what
an admissible trace containing `timeout` means: the timer is still armed,
so no `close`, `error` or `cancel` preceded it), the subprocess receives
a termination request, `onError` fires with the timeout message — which
contains the rendered timeout duration — and `onDone` never fires in the
whole invocation. -/
theorem timeout_kills_and_reports (tm : Nat) (t : List Ev)
    (hadm : Admissible t) (hto : Ev.timeout ∈ t) :
    Out.killProc ∈ (run tm initState t).2 ∧
    Out.error (timeoutMessage tm) ∈ (run tm initState t).2 ∧
    (∀ (ft : String) (sid : Option String), Out.done ft sid ∉ (run tm initState t).2) ∧
    (jsDiv1000String tm).data <:+: (timeoutMessage tm).data := by
  obtain ⟨h1, h2, h3⟩ := run_timeout_effects tm t initState rfl hadm hto
  exact ⟨h1, h2, h3,
    ⟨"Claude timed out after ".data, "s".data, by simp [timeoutMessage]⟩⟩

/-- C4 witness: with a 120000 ms budget, the timeout event produces the
kill request and the concrete message `Claude timed out after 120s`. -/
theorem timeout_kills_and_reports_witness :
    Admissible [Ev.timeout] ∧ Ev.timeout ∈ [Ev.timeout] ∧
    Out.error (timeoutMessage 120000) ∈ (run 120000 initState [Ev.timeout]).2 ∧
    timeoutMessage 120000 = "Claude timed out after 120s" := by
  refine ⟨by rfl, by simp, ?_, by rfl⟩
  exact (timeout_kills_and_reports 120000 [Ev.timeout] (by rfl) (by simp)).2.1

theorem run_append (tm : Nat) (t1 t2 : List Ev) :
    ∀ s, run tm s (t1 ++ t2) =
      ((run tm (run tm s t1).1 t2).1,
        (run tm s t1).2 ++ (run tm (run tm s t1).1 t2).2) := by
  induction t1 with
  | nil =>
    intro s
    simp [run]
  | cons e rest ih =>
    intro s
    rw [List.cons_append, run_cons, ih, run_cons]
    simp [List.append_assoc]

theorem step_cancel_killed (tm : Nat) (s : ProcState) :
    ((step tm s Ev.cancel).1).killed = true := by
  cases hsk : s.killed <;> simp [step, hsk]

/-- C9 (amended): after the cancel handle runs, neither `onDone` nor
`onError` can ever fire, whatever events follow — the `killed` flag
suppresses both terminal callbacks.  (`onChunk` is *not* suppressed; see
the counterexample.) -/
theorem no_terminal_after_cancel (tm : Nat) (pre post : List Ev) :
    terminalCount (run tm (run tm initState (pre ++ [Ev.cancel])).1 post).2 = 0 := by
  have hki : ((run tm initState (pre ++ [Ev.cancel])).1).killed = true := by
    rw [run_append]
    have : run tm (run tm initState pre).1 [Ev.cancel] =
        ((step tm (run tm initState pre).1 Ev.cancel).1,
          (step tm (run tm initState pre).1 Ev.cancel).2 ++ []) := rfl
    rw [this]
    exact step_cancel_killed tm _
  exact terminalCount_eq_zero_of_chunks (run_killed_outs_chunk tm post _ hki)

set_option maxRecDepth 100000 in
/-- C9 counterexample: the stdout `data` handler does not consult the
`killed` flag, so output that arrives after cancellation still triggers
`onChunk` — here a cancelled invocation receives a text delta line and
the chunk callback fires anyway, refuting "no further callback of any
kind ever fires". -/
theorem chunk_fires_after_cancel :
    ((run 120000 initState [Ev.cancel]).1).killed = true ∧
    (run 120000 (run 120000 initState [Ev.cancel]).1
        [Ev.data (("\x7b\"type\":\"stream_event\",\"event\":\x7b\"type\":\"content_block_delta\",\"delta\":\x7b\"type\":\"text_delta\",\"text\":\"Hi\"\x7d\x7d\x7d\n").data.map Char.toNat)]).2
      = [Out.chunk "Hi"] := by
  exact ⟨rfl, by decide⟩

/-! ### Buffer/newline algebra for C1 -/

theorem splitNl_no_newline (l : List Char) (h : '\n' ∉ l) : splitNl l = ([], l) := by
  induction l with
  | nil => rfl
  | cons c rest ih =>
    rw [List.mem_cons, not_or] at h
    have hc : ¬ c = '\n' := fun hh => h.1 hh.symm
    simp [splitNl, ih h.2, hc]

theorem splitNl_rem_no_newline (l : List Char) : '\n' ∉ (splitNl l).2 := by
  induction l with
  | nil => simp [splitNl]
  | cons c rest ih =>
    by_cases hc : c = '\n'
    · simpa [splitNl, hc] using ih
    · simp only [splitNl, if_neg hc]
      cases h1 : (splitNl rest).1 with
      | nil =>
        intro hmem
        rcases List.mem_cons.mp hmem with h | h
        · exact hc h.symm
        · exact ih h
      | cons l ls => exact ih

/-- How the carry-over split composes: splitting `a ++ b` gives the
complete lines of `a` followed by the complete lines of `a`'s remainder
prepended to `b`, with the latter's remainder. -/
theorem splitNl_append (a b : List Char) :
    splitNl (a ++ b) =
      ((splitNl a).1 ++ (splitNl ((splitNl a).2 ++ b)).1,
        (splitNl ((splitNl a).2 ++ b)).2) := by
  induction a with
  | nil => simp [splitNl]
  | cons c a ih =>
    by_cases hc : c = '\n'
    · subst hc
      simp [List.cons_append, splitNl, ih]
    · cases h1 : (splitNl a).1 with
      | nil =>
        cases h2 : (splitNl ((splitNl a).2 ++ b)).1 with
        | nil => simp [List.cons_append, splitNl, hc, ih, h1, h2]
        | cons l ls => simp [List.cons_append, splitNl, hc, ih, h1, h2]
      | cons l ls => simp [List.cons_append, splitNl, hc, ih, h1]

theorem processLines_append (xs ys : List (List Char)) :
    ∀ (fr : String) (sid : Option String),
      processLines fr sid (xs ++ ys) =
        ((processLines fr sid xs).1 ++
          (processLines (processLines fr sid xs).2.1 (processLines fr sid xs).2.2 ys).1,
          (processLines (processLines fr sid xs).2.1 (processLines fr sid xs).2.2 ys).2) := by
  induction xs with
  | nil =>
    intro fr sid
    simp [processLines]
  | cons l xs ih =>
    intro fr sid
    simp only [List.cons_append, processLines, List.append_eq, ih, List.append_assoc]

/-- Processing two already-decoded chunks in sequence is the same as
processing their concatenated text: same final state, same concatenated
outputs. -/
theorem dataHandler_comp (s : ProcState) (a b : List Char) :
    (dataHandler (dataHandler s a).1 b).1 = (dataHandler s (a ++ b)).1 ∧
    (dataHandler s a).2 ++ (dataHandler (dataHandler s a).1 b).2
      = (dataHandler s (a ++ b)).2 := by
  simp only [dataHandler]
  rw [← List.append_assoc, splitNl_append (s.buffer ++ a) b, processLines_append]
  exact ⟨rfl, rfl⟩

/-- Running a sequence of byte arrivals equals one run of the data
handler on the concatenation of the **per-chunk decodings**: the
carry-over buffer is boundary-blind at the decoded-character level (but
each chunk is decoded on its own, as in the source). -/
theorem run_data_flatten (tm : Nat) :
    ∀ (cs : List (List Nat)) (s : ProcState), '\n' ∉ s.buffer →
      run tm s (cs.map Ev.data) = dataHandler s ((cs.map utf8Decode).flatten) := by
  intro cs
  induction cs with
  | nil =>
    intro s hnb
    simp [run, dataHandler, splitNl_no_newline s.buffer (by simpa using hnb), processLines]
  | cons c cs ih =>
    intro s hnb
    rw [List.map_cons, run_cons]
    have hnb' : '\n' ∉ ((step tm s (Ev.data c)).1).buffer := by
      simp only [step, dataHandler]
      exact splitNl_rem_no_newline _
    rw [ih _ hnb']
    obtain ⟨h1, h2⟩ := dataHandler_comp s (utf8Decode c) ((cs.map utf8Decode).flatten)
    rw [show step tm s (Ev.data c) = dataHandler s (utf8Decode c) from rfl, h1, h2]
    rfl

/-- Decoding consumes a canonically encoded character exactly. -/
theorem utf8Decode_encodeChar (c : Char) (rest : List Nat) :
    utf8Decode (utf8EncodeChar c ++ rest) = c :: utf8Decode rest := by
  have hv : c.toNat < 0xD800 ∨ (0xDFFF < c.toNat ∧ c.toNat < 0x110000) := c.valid
  by_cases h1 : c.toNat < 0x80
  · simp only [utf8EncodeChar, if_pos h1, List.cons_append, List.nil_append]
    rw [utf8Decode.eq_def]
    simp only [if_pos h1, Char.ofNat_toNat]
  · by_cases h2 : c.toNat < 0x800
    · simp only [utf8EncodeChar, if_neg h1, if_pos h2, List.cons_append, List.nil_append]
      have hb1 : ¬ (0xC0 + c.toNat / 64 < 0x80) := by omega
      have hb2 : 0xC2 ≤ 0xC0 + c.toNat / 64 ∧ 0xC0 + c.toNat / 64 ≤ 0xDF := by omega
      have hcont : isUtf8Cont (0x80 + c.toNat % 64) = true := by
        simp only [isUtf8Cont, decide_eq_true_eq]
        omega
      rw [utf8Decode.eq_def]
      simp only [if_neg hb1, if_pos hb2, hcont, if_true]
      have harg : (0xC0 + c.toNat / 64 - 0xC0) * 64 + (0x80 + c.toNat % 64 - 0x80)
          = c.toNat := by omega
      rw [harg, Char.ofNat_toNat]
    · by_cases h3 : c.toNat < 0x10000
      · simp only [utf8EncodeChar, if_neg h1, if_neg h2, if_pos h3, List.cons_append,
          List.nil_append]
        have hb1 : ¬ (0xE0 + c.toNat / 4096 < 0x80) := by omega
        have hb2 : ¬ (0xC2 ≤ 0xE0 + c.toNat / 4096 ∧ 0xE0 + c.toNat / 4096 ≤ 0xDF) := by
          omega
        have hb3 : 0xE0 ≤ 0xE0 + c.toNat / 4096 ∧ 0xE0 + c.toNat / 4096 ≤ 0xEF := by omega
        have hs : utf8Second3Ok (0xE0 + c.toNat / 4096) (0x80 + c.toNat / 64 % 64)
            = true := by
          simp only [utf8Second3Ok, isUtf8Cont]
          split_ifs with he hd <;> simp only [decide_eq_true_eq] <;> omega
        have hcont : isUtf8Cont (0x80 + c.toNat % 64) = true := by
          simp only [isUtf8Cont, decide_eq_true_eq]
          omega
        rw [utf8Decode.eq_def]
        simp only [if_neg hb1, if_neg hb2, if_pos hb3, hs, hcont, if_true]
        have harg : (0xE0 + c.toNat / 4096 - 0xE0) * 4096
            + (0x80 + c.toNat / 64 % 64 - 0x80) * 64 + (0x80 + c.toNat % 64 - 0x80)
            = c.toNat := by omega
        rw [harg, Char.ofNat_toNat]
      · have h4 : c.toNat < 0x110000 := by rcases hv with hv | hv <;> omega
        simp only [utf8EncodeChar, if_neg h1, if_neg h2, if_neg h3, List.cons_append,
          List.nil_append]
        have hb1 : ¬ (0xF0 + c.toNat / 262144 < 0x80) := by omega
        have hb2 : ¬ (0xC2 ≤ 0xF0 + c.toNat / 262144 ∧ 0xF0 + c.toNat / 262144 ≤ 0xDF) := by
          omega
        have hb3 : ¬ (0xE0 ≤ 0xF0 + c.toNat / 262144 ∧ 0xF0 + c.toNat / 262144 ≤ 0xEF) := by
          omega
        have hb4 : 0xF0 ≤ 0xF0 + c.toNat / 262144 ∧ 0xF0 + c.toNat / 262144 ≤ 0xF4 := by
          omega
        have hs : utf8Second4Ok (0xF0 + c.toNat / 262144) (0x80 + c.toNat / 4096 % 64)
            = true := by
          simp only [utf8Second4Ok, isUtf8Cont]
          split_ifs with he hd <;> simp only [decide_eq_true_eq] <;> omega
        have hc2 : isUtf8Cont (0x80 + c.toNat / 64 % 64) = true := by
          simp only [isUtf8Cont, decide_eq_true_eq]
          omega
        have hc3 : isUtf8Cont (0x80 + c.toNat % 64) = true := by
          simp only [isUtf8Cont, decide_eq_true_eq]
          omega
        rw [utf8Decode.eq_def]
        simp only [if_neg hb1, if_neg hb2, if_neg hb3, if_pos hb4, hs, hc2, hc3, if_true]
        have harg : (0xF0 + c.toNat / 262144 - 0xF0) * 262144
            + (0x80 + c.toNat / 4096 % 64 - 0x80) * 4096
            + (0x80 + c.toNat / 64 % 64 - 0x80) * 64 + (0x80 + c.toNat % 64 - 0x80)
            = c.toNat := by omega
        rw [harg, Char.ofNat_toNat]

/-- Decoding distributes over a character-aligned boundary. -/
theorem utf8Decode_encode_append (s : List Char) (rest : List Nat) :
    utf8Decode (utf8Encode s ++ rest) = s ++ utf8Decode rest := by
  induction s with
  | nil => simp [utf8Encode]
  | cons c s ih =>
    have hflat : utf8Encode (c :: s) = utf8EncodeChar c ++ utf8Encode s := by
      simp [utf8Encode]
    rw [hflat, List.append_assoc, utf8Decode_encodeChar, ih]
    rfl

set_option maxRecDepth 100000 in
/-- C1 counterexample: `Buffer.toString("utf8")` (line 189) decodes each
chunk independently, so a byte partition that splits the two-byte
character U+00E9 (`0xC3 0xA9`) across arrivals turns it into two U+FFFD
replacement characters: the same byte stream emits the delta
`"��"` when split mid-character but `"é"` when delivered
whole — the emitted deltas are *not* invariant under arbitrary byte
partitions. -/
theorem utf8_split_changes_deltas :
    (run 120000 initState
        [Ev.data (("\x7b\"type\":\"stream_event\",\"event\":\x7b\"type\":\"content_block_delta\",\"delta\":\x7b\"type\":\"text_delta\",\"text\":\"").data.map Char.toNat ++ [0xC3]),
         Ev.data ([0xA9] ++ ("\"\x7d\x7d\x7d\n").data.map Char.toNat)]).2
      = [Out.chunk "��"] ∧
    (run 120000 initState
        [Ev.data ((("\x7b\"type\":\"stream_event\",\"event\":\x7b\"type\":\"content_block_delta\",\"delta\":\x7b\"type\":\"text_delta\",\"text\":\"").data.map Char.toNat ++ [0xC3])
          ++ ([0xA9] ++ ("\"\x7d\x7d\x7d\n").data.map Char.toNat))]).2
      = [Out.chunk "é"] ∧
    ([Out.chunk "��"] : List Out) ≠ [Out.chunk "é"] := by
  refine ⟨by decide, by decide, by decide⟩

/-- C1 (amended): the emitted `onChunk` sequence is a function of the
concatenation of the **per-chunk decoded** text: any two byte partitions
whose chunk-wise `utf8Decode`s concatenate to the same character
sequence emit identical outputs, and in particular any two partitions
that split only at UTF-8 character boundaries (each chunk the encoding
of a character sequence) of the same character stream do.  Partitions
that split inside a multi-byte character are *not* invariant — see the
counterexample. -/
theorem chunk_boundary_invariance_decoded (tm : Nat) (cs ds : List (List Nat))
    (h : (cs.map utf8Decode).flatten = (ds.map utf8Decode).flatten) :
    ((run tm initState (cs.map Ev.data)).2 = (run tm initState (ds.map Ev.data)).2) ∧
    (∀ (css dss : List (List Char)), css.flatten = dss.flatten →
      (run tm initState ((css.map utf8Encode).map Ev.data)).2
        = (run tm initState ((dss.map utf8Encode).map Ev.data)).2) := by
  have main : ∀ (xs ys : List (List Nat)),
      (xs.map utf8Decode).flatten = (ys.map utf8Decode).flatten →
      (run tm initState (xs.map Ev.data)).2 = (run tm initState (ys.map Ev.data)).2 := by
    intro xs ys hxy
    rw [run_data_flatten tm xs initState (by simp [initState]),
      run_data_flatten tm ys initState (by simp [initState]), hxy]
  have hdec : ∀ (zss : List (List Char)),
      ((zss.map utf8Encode).map utf8Decode).flatten = zss.flatten := by
    intro zss
    induction zss with
    | nil => rfl
    | cons z zss ih =>
      have hz := utf8Decode_encode_append z []
      rw [List.append_nil, show utf8Decode [] = [] from rfl, List.append_nil] at hz
      simp only [List.map_cons, List.flatten_cons, ih, hz]
  refine ⟨main cs ds h, fun css dss hflat => main _ _ ?_⟩
  rw [hdec, hdec, hflat]

set_option maxRecDepth 100000 in
/-- C1 witness: a text-delta line split mid-line at a character boundary
and delivered in two byte arrivals emits the same single chunk as the
whole line in one arrival. -/
theorem chunk_boundary_invariance_decoded_witness :
    (([("\x7b\"type\":\"stream_event\",\"event\":\x7b\"type\":\"content_block_del").data.map Char.toNat,
       ("ta\",\"delta\":\x7b\"type\":\"text_delta\",\"text\":\"Hi\"\x7d\x7d\x7d\n").data.map Char.toNat].map utf8Decode).flatten
      = ([("\x7b\"type\":\"stream_event\",\"event\":\x7b\"type\":\"content_block_delta\",\"delta\":\x7b\"type\":\"text_delta\",\"text\":\"Hi\"\x7d\x7d\x7d\n").data.map Char.toNat].map utf8Decode).flatten) ∧
    (run 120000 initState
        ([("\x7b\"type\":\"stream_event\",\"event\":\x7b\"type\":\"content_block_del").data.map Char.toNat,
          ("ta\",\"delta\":\x7b\"type\":\"text_delta\",\"text\":\"Hi\"\x7d\x7d\x7d\n").data.map Char.toNat].map Ev.data)).2
      = (run 120000 initState
          ([("\x7b\"type\":\"stream_event\",\"event\":\x7b\"type\":\"content_block_delta\",\"delta\":\x7b\"type\":\"text_delta\",\"text\":\"Hi\"\x7d\x7d\x7d\n").data.map Char.toNat].map Ev.data)).2 :=
  ⟨by decide, (chunk_boundary_invariance_decoded 120000 _ _ (by decide)).1⟩

/-! ### Session-id tracking for C8 -/

/-- One line's effect on `capturedSessionId` is exactly "overwrite when
the line is a result event with a string session id". -/
theorem processLine_sid (fr : String) (sid : Option String) (l : List Char) :
    (processLine fr sid l).2.2 =
      (match resultSessionIdOfLine l with
       | some s => some s
       | none => sid) := by
  unfold processLine resultSessionIdOfLine
  by_cases ht : jsTrimEmpty l = true
  · simp [ht]
  · simp only [ht, Bool.false_eq_true, if_false]
    cases hp : jsonParse (String.mk l) with
    | none => simp
    | some ev =>
      simp only [applyResult]
      by_cases hr : ev.getField "type" = some (Json.str "result")
      · simp only [hr, if_true]
        cases hs : ev.getField "session_id" with
        | none => simp
        | some v => cases v <;> simp
      · simp [hr]

theorem processLines_sid (ls : List (List Char)) :
    ∀ (fr : String) (sid : Option String),
      (processLines fr sid ls).2.2 =
        (match (ls.filterMap resultSessionIdOfLine).getLast? with
         | some s => some s
         | none => sid) := by
  induction ls with
  | nil =>
    intro fr sid
    simp [processLines]
  | cons l ls ih =>
    intro fr sid
    simp only [processLines]
    rw [ih, processLine_sid]
    cases hf : resultSessionIdOfLine l with
    | none => simp [List.filterMap_cons, hf]
    | some s =>
      simp only [List.filterMap_cons, hf]
      cases hls : (ls.filterMap resultSessionIdOfLine).getLast? with
      | none =>
        have he : ls.filterMap resultSessionIdOfLine = [] :=
          List.getLast?_eq_none_iff.mp hls
        simp [he]
      | some s2 =>
        have : (s :: ls.filterMap resultSessionIdOfLine).getLast? = some s2 := by
          rw [List.getLast?_cons, hls]
          rfl
        simp [this, hls]

theorem doneSessionIds_append (a b : List Out) :
    doneSessionIds (a ++ b) = doneSessionIds a ++ doneSessionIds b := by
  simp [doneSessionIds]

/-- C8 (amended): for a stream delivered in any number of stdout byte
chunks followed by process exit, `onDone` fires exactly once and the
session token it carries is the one from the **last** result event of
the (per-chunk-decoded) stream that carries a string session id (each
such event overwrites the captured token). -/
theorem done_carries_last_session_id (tm : Nat) (chunks : List (List Nat)) :
    doneSessionIds (run tm initState (chunks.map Ev.data ++ [Ev.close])).2
      = [lastStreamSessionId ((chunks.map utf8Decode).flatten)] := by
  rw [run_append, run_data_flatten tm chunks initState (by simp [initState])]
  rw [doneSessionIds_append]
  have hchunks :
      doneSessionIds (dataHandler initState ((chunks.map utf8Decode).flatten)).2 = [] := by
    unfold doneSessionIds
    rw [List.filterMap_eq_nil_iff]
    intro o ho
    rcases dataHandler_outs_chunk initState ((chunks.map utf8Decode).flatten) o ho with ⟨c, rfl⟩
    rfl
  rw [hchunks, List.nil_append]
  have hkilled : ((dataHandler initState ((chunks.map utf8Decode).flatten)).1).killed
      = false := by
    rw [dataHandler_killed]
    rfl
  have hsid : ((dataHandler initState ((chunks.map utf8Decode).flatten)).1).capturedSessionId
      = lastStreamSessionId ((chunks.map utf8Decode).flatten) := by
    simp only [dataHandler, initState, List.nil_append]
    rw [processLines_sid]
    unfold lastStreamSessionId streamSessionIds
    cases ((splitNl ((chunks.map utf8Decode).flatten)).1.filterMap
      resultSessionIdOfLine).getLast? <;> rfl
  have hclose : run tm (dataHandler initState ((chunks.map utf8Decode).flatten)).1 [Ev.close]
      = ((dataHandler initState ((chunks.map utf8Decode).flatten)).1,
          [Out.done ((dataHandler initState ((chunks.map utf8Decode).flatten)).1).finalResult
            ((dataHandler initState ((chunks.map utf8Decode).flatten)).1).capturedSessionId]) := by
    rw [run_cons]
    simp [run, step, hkilled]
  rw [hclose, hsid]
  rfl

set_option maxRecDepth 100000 in
/-- C8 counterexample: a stream with two result events carrying distinct
session ids.  `onDone` receives `"second"`, the id of the *last* result
event, not `"first"`, the id of the first one — each result event
overwrites `capturedSessionId` (`executor.ts` lines 226–228). -/
theorem done_session_id_not_first :
    firstStreamSessionId ("\x7b\"type\":\"result\",\"result\":\"A\",\"session_id\":\"first\"\x7d\n\x7b\"type\":\"result\",\"result\":\"B\",\"session_id\":\"second\"\x7d\n").data
      = some "first" ∧
    doneSessionIds (run 120000 initState
        [Ev.data (("\x7b\"type\":\"result\",\"result\":\"A\",\"session_id\":\"first\"\x7d\n\x7b\"type\":\"result\",\"result\":\"B\",\"session_id\":\"second\"\x7d\n").data.map Char.toNat),
         Ev.close]).2
      = [some "second"] ∧
    (some "second" : Option String) ≠ some "first" := by
  refine ⟨by decide, by decide, by decide⟩

/-- C5: when the configured executable's base name is not on the
allow-list, the invocation reports the binary-name error synchronously,
spawns nothing, and returns a no-op cancel handle; because the statement
holds for every filesystem oracle, the later executable/working-directory
checks are never consulted — validation stops at the first failing
check. -/
theorem invalid_binary_name_rejected (fsO : FsOracle) (platform : Platform)
    (homedir : String) (skillId : Option String) (text : String)
    (settings : PluginSettings) (sessionId : Option String)
    (h : ¬ VALID_BINARY_NAMES.contains (basename settings.claudeBinPath)) :
    invokeSetup fsO platform homedir skillId text settings sessionId =
      { syncOutputs := [Out.error ("Unexpected binary name \""
          ++ basename settings.claudeBinPath
          ++ "\". Expected one of: " ++ String.intercalate ", " VALID_BINARY_NAMES)],
        spawned := none, cancelNoop := true } := by
  unfold invokeSetup validatePaths
  rw [if_pos h]

/-- C5 witness: a lookalike binary path is rejected with the concrete
message, for a filesystem on which every other check would pass. -/
theorem invalid_binary_name_rejected_witness :
    (¬ VALID_BINARY_NAMES.contains (basename "/usr/bin/bash")) ∧
    invokeSetup ⟨fun _ => true, fun _ => .isDir⟩ Platform.linux "/home/u" none "hi"
        ⟨"/usr/bin/bash", "", 120000, 0, "", []⟩ none =
      { syncOutputs := [Out.error ("Unexpected binary name \"bash\". "
          ++ "Expected one of: claude, claude-code")],
        spawned := none, cancelNoop := true } :=
  ⟨by decide, invalid_binary_name_rejected ⟨fun _ => true, fun _ => .isDir⟩ Platform.linux
    "/home/u" none "hi" ⟨"/usr/bin/bash", "", 120000, 0, "", []⟩ none (by decide)⟩

/-! ### Message and argument composition (C6, C7) -/

/-- C6 counterexample: a present-but-empty `skillId` is falsy in
JavaScript (`skillId ? … : text`), so the composed message is the bare
text, not a directive line `/` + empty id + blank line + text as the
claim's "when skillId is present" universal would require. -/
theorem compose_message_empty_skill :
    composeMessage (some "") "hello" = "hello" ∧
    ("hello" : String) ≠ "/" ++ "" ++ "\n\n" ++ "hello" :=
  ⟨rfl, by decide⟩

/-- C6 (amended): for a validated configuration, the spawn record writes
the composed message exactly once to stdin and closes it; the message is
the directive line plus blank line plus raw text when `skillId` is
present *and non-empty*, and exactly the raw text when `skillId` is
absent or empty. -/
theorem message_composition (fsO : FsOracle) (platform : Platform) (homedir : String)
    (skillId : Option String) (text : String) (settings : PluginSettings)
    (sessionId : Option String) (hok : validatePaths fsO settings = Except.ok ()) :
    ∃ rec, (invokeSetup fsO platform homedir skillId text settings sessionId).spawned
        = some rec ∧
      rec.stdinWrites = [composeMessage skillId text] ∧
      rec.stdinClosed = true ∧
      (∀ sid, skillId = some sid → sid ≠ "" →
        composeMessage skillId text = "/" ++ sid ++ "\n\n" ++ text) ∧
      ((skillId = none ∨ skillId = some "") → composeMessage skillId text = text) := by
  have hspawn : (invokeSetup fsO platform homedir skillId text settings sessionId).spawned
      = some
        { command :=
            (buildIsolatedSpawn fsO platform settings.claudeBinPath
              (claudeArgs settings sessionId)).command,
          args :=
            (buildIsolatedSpawn fsO platform settings.claudeBinPath
              (claudeArgs settings sessionId)).args,
          cwd := if jsTrim settings.workingDirectory ≠ "" then jsTrim settings.workingDirectory
            else homedir,
          stdinWrites := [composeMessage skillId text],
          stdinClosed := true } := by
    unfold invokeSetup
    rw [hok]
  refine ⟨_, hspawn, rfl, rfl, ?_, ?_⟩
  · intro sid hs hne
    subst hs
    simp [composeMessage, hne]
  · intro h
    rcases h with h | h <;> subst h <;> simp [composeMessage]

/-- C6 witness: the spec's end-to-end scenario — skill `summarize`, text
`hello`, valid binary path — produces the message `/summarize\n\nhello`,
written once to a closed stdin. -/
theorem message_composition_witness :
    validatePaths ⟨fun _ => true, fun _ => .isDir⟩
        ⟨"/usr/local/bin/claude", "", 120000, 0, "", []⟩ = Except.ok () ∧
    composeMessage (some "summarize") "hello" = "/summarize\n\nhello" ∧
    ∃ rec,
      (invokeSetup ⟨fun _ => true, fun _ => .isDir⟩ Platform.win32 "/home/u"
          (some "summarize") "hello" ⟨"/usr/local/bin/claude", "", 120000, 0, "", []⟩
          none).spawned = some rec ∧
      rec.stdinWrites = ["/summarize\n\nhello"] ∧ rec.stdinClosed = true := by
  refine ⟨rfl, rfl, ?_⟩
  obtain ⟨rec, h1, h2, h3, h4, h5⟩ :=
    message_composition ⟨fun _ => true, fun _ => .isDir⟩ Platform.win32 "/home/u"
      (some "summarize") "hello" ⟨"/usr/local/bin/claude", "", 120000, 0, "", []⟩ none rfl
  exact ⟨rec, h1, by rw [h2]; decide, h3⟩

/-- A consecutive pair occurring in a list puts its first element before
the last position. -/
theorem consecutive_mem_dropLast {α : Type _} {a b : α} {l : List α}
    (h : [a, b] <:+: l) : a ∈ l.dropLast := by
  obtain ⟨s, t, rfl⟩ := h
  rw [show s ++ [a, b] ++ t = s ++ a :: (b :: t) by simp]
  rw [List.dropLast_append_cons, List.dropLast_cons₂]
  exact List.mem_append_right _ (List.mem_cons_self _ _)

theorem sub_append_right {α : Type _} {m x y : List α} (h : m <:+: x) : m <:+: x ++ y := by
  obtain ⟨s, t, rfl⟩ := h
  exact ⟨s, t ++ y, by simp⟩

/-- C7 counterexample: the cap `-1` is nonzero yet the budget flag is
absent (the code tests `> 0`, not `≠ 0`), and an empty-string session
token is supplied yet the resume flag is absent (JavaScript truthiness),
refuting both "if and only if"s as stated. -/
theorem budget_and_resume_iff_fail :
    ((-1 : Rat) ≠ 0) ∧
    "--max-budget-usd" ∉ claudeArgs ⟨"/usr/local/bin/claude", "", 120000, -1, "", []⟩ none ∧
    "--resume" ∉ claudeArgs ⟨"/usr/local/bin/claude", "", 120000, 0, "", []⟩ (some "") := by
  refine ⟨by decide, by decide, by decide⟩

/-- C7 (amended): the composed argument list always contains the print,
stream-json output-format, partial-message, verbose and Skill-allowlist
flags; it contains the budget-cap flag pair iff the configured cap is
**positive** (not merely nonzero); and it contains the resume flag with
exactly the supplied token iff a **non-empty** session token is
supplied. -/
theorem argument_list_composition (settings : PluginSettings) (sessionId : Option String) :
    "--print" ∈ claudeArgs settings sessionId ∧
    ["--output-format", "stream-json"] <:+: claudeArgs settings sessionId ∧
    "--include-partial-messages" ∈ claudeArgs settings sessionId ∧
    "--verbose" ∈ claudeArgs settings sessionId ∧
    ["--allowedTools", "Skill"] <:+: claudeArgs settings sessionId ∧
    (0 < settings.maxBudgetUsd →
      ["--max-budget-usd", budgetValueString settings.maxBudgetUsd]
        <:+: claudeArgs settings sessionId) ∧
    (¬ 0 < settings.maxBudgetUsd →
      ∀ v, ¬ (["--max-budget-usd", v] <:+: claudeArgs settings sessionId)) ∧
    (∀ sid, sessionId = some sid → sid ≠ "" →
      ["--resume", sid] <:+: claudeArgs settings sessionId) ∧
    ((sessionId = none ∨ sessionId = some "") →
      ∀ v, ¬ (["--resume", v] <:+: claudeArgs settings sessionId)) := by
  have hbase : ∃ X, claudeArgs settings sessionId = claudeBaseArgs ++ X := by
    rcases sessionId with _ | sid
    · by_cases hb : 0 < settings.maxBudgetUsd
      · exact ⟨["--max-budget-usd", budgetValueString settings.maxBudgetUsd],
          by simp [claudeArgs, hb]⟩
      · exact ⟨[], by simp [claudeArgs, hb]⟩
    · by_cases hsid : sid = ""
      · by_cases hb : 0 < settings.maxBudgetUsd
        · exact ⟨["--max-budget-usd", budgetValueString settings.maxBudgetUsd],
            by simp [claudeArgs, hb, hsid]⟩
        · exact ⟨[], by simp [claudeArgs, hb, hsid]⟩
      · by_cases hb : 0 < settings.maxBudgetUsd
        · exact ⟨["--max-budget-usd", budgetValueString settings.maxBudgetUsd, "--resume", sid],
            by simp [claudeArgs, hb, hsid]⟩
        · exact ⟨["--resume", sid], by simp [claudeArgs, hb, hsid]⟩
  obtain ⟨X, hX⟩ := hbase
  refine ⟨by rw [hX]; exact List.mem_append_left _ (by decide),
    by rw [hX]; exact sub_append_right (by decide),
    by rw [hX]; exact List.mem_append_left _ (by decide),
    by rw [hX]; exact List.mem_append_left _ (by decide),
    by rw [hX]; exact sub_append_right (by decide), ?_, ?_, ?_, ?_⟩
  · intro hb
    rcases sessionId with _ | sid
    · rw [show claudeArgs settings none
          = claudeBaseArgs ++ ["--max-budget-usd", budgetValueString settings.maxBudgetUsd]
          from by simp [claudeArgs, hb]]
      exact ⟨claudeBaseArgs, [], by simp⟩
    · by_cases hsid : sid = ""
      · rw [show claudeArgs settings (some sid)
            = claudeBaseArgs ++ ["--max-budget-usd", budgetValueString settings.maxBudgetUsd]
            from by simp [claudeArgs, hb, hsid]]
        exact ⟨claudeBaseArgs, [], by simp⟩
      · rw [show claudeArgs settings (some sid)
            = (claudeBaseArgs ++ ["--max-budget-usd", budgetValueString settings.maxBudgetUsd])
              ++ ["--resume", sid]
            from by simp [claudeArgs, hb, hsid]]
        exact sub_append_right ⟨claudeBaseArgs, [], by simp⟩
  · intro hb v hv
    rcases sessionId with _ | sid
    · rw [show claudeArgs settings none = claudeBaseArgs from by simp [claudeArgs, hb]] at hv
      have hmem := consecutive_mem_dropLast hv
      revert hmem
      decide
    · by_cases hsid : sid = ""
      · rw [show claudeArgs settings (some sid) = claudeBaseArgs
            from by simp [claudeArgs, hb, hsid]] at hv
        have hmem := consecutive_mem_dropLast hv
        revert hmem
        decide
      · rw [show claudeArgs settings (some sid) = (claudeBaseArgs ++ ["--resume"]) ++ [sid]
            from by simp [claudeArgs, hb, hsid]] at hv
        have hmem := consecutive_mem_dropLast hv
        rw [List.dropLast_concat] at hmem
        revert hmem
        decide
  · intro sid hs hne
    subst hs
    by_cases hb : 0 < settings.maxBudgetUsd
    · rw [show claudeArgs settings (some sid)
          = (claudeBaseArgs ++ ["--max-budget-usd", budgetValueString settings.maxBudgetUsd])
            ++ ["--resume", sid]
          from by simp [claudeArgs, hb, hne]]
      exact ⟨claudeBaseArgs ++ ["--max-budget-usd", budgetValueString settings.maxBudgetUsd],
        [], by simp⟩
    · rw [show claudeArgs settings (some sid) = claudeBaseArgs ++ ["--resume", sid]
          from by simp [claudeArgs, hb, hne]]
      exact ⟨claudeBaseArgs, [], by simp⟩
  · intro hs v hv
    by_cases hb : 0 < settings.maxBudgetUsd
    · rcases hs with hs | hs <;> subst hs
      · rw [show claudeArgs settings none
            = (claudeBaseArgs ++ ["--max-budget-usd"]) ++ [budgetValueString settings.maxBudgetUsd]
            from by simp [claudeArgs, hb]] at hv
        have hmem := consecutive_mem_dropLast hv
        rw [List.dropLast_concat] at hmem
        revert hmem
        decide
      · rw [show claudeArgs settings (some "")
            = (claudeBaseArgs ++ ["--max-budget-usd"]) ++ [budgetValueString settings.maxBudgetUsd]
            from by simp [claudeArgs, hb]] at hv
        have hmem := consecutive_mem_dropLast hv
        rw [List.dropLast_concat] at hmem
        revert hmem
        decide
    · rcases hs with hs | hs <;> subst hs
      · rw [show claudeArgs settings none = claudeBaseArgs from by simp [claudeArgs, hb]] at hv
        have hmem := consecutive_mem_dropLast hv
        revert hmem
        decide
      · rw [show claudeArgs settings (some "") = claudeBaseArgs
            from by simp [claudeArgs, hb]] at hv
        have hmem := consecutive_mem_dropLast hv
        revert hmem
        decide

/-- C7 witness: the spec's end-to-end scenario — zero budget, no session
token — yields exactly the base argument list: streaming flags present,
no budget flag, no resume flag. -/
theorem argument_list_composition_witness :
    claudeArgs ⟨"/usr/local/bin/claude", "/tmp/proj", 5000, 0, "", []⟩ none
      = claudeBaseArgs ∧
    "--print" ∈ claudeArgs ⟨"/usr/local/bin/claude", "/tmp/proj", 5000, 0, "", []⟩ none ∧
    (¬ (0 : Rat) < 0 →
      ∀ v, ¬ (["--max-budget-usd", v]
        <:+: claudeArgs ⟨"/usr/local/bin/claude", "/tmp/proj", 5000, 0, "", []⟩ none)) := by
  refine ⟨by decide, ?_, ?_⟩
  · exact (argument_list_composition ⟨"/usr/local/bin/claude", "/tmp/proj", 5000, 0, "", []⟩
      none).1
  · intro h0 v
    exact (argument_list_composition ⟨"/usr/local/bin/claude", "/tmp/proj", 5000, 0, "", []⟩
      none).2.2.2.2.2.2.1 h0 v

end ClaudeSkills
